import Mathlib

/-!
Verification of the printpdf core against its natural-language specification.
The Rust sources under `src/` are shallowly embedded as Lean definitions:
pure functions become Lean functions, the statefully built `lopdf::Document`
becomes explicit state passing over `LoDoc`, panics (`unwrap`/`expect`) become
`Option`/dedicated outcome constructors, and machine integers become `Nat`/`Int`
with explicit truncation where a cast occurs in the source.
-/

/-- One structural token of the generated ToUnicode CMap body:
`begin i` stands for the line `"{i} beginbfchar"`, `endblk` for `"endbfchar"`,
and `pair g u` for the line `"<g:04x> <u:04x>"`. -/
inductive CmapTok where
  | begin (id : Nat)
  | endblk
  | pair (glyph unicode : Nat)
deriving DecidableEq, Repr

/-- Content carried by a PDF stream object.  Ordinary streams carry raw bytes;
the generated ToUnicode CMap stream is represented by the font name interpolated
into its header template together with the sequence of structural tokens
(`beginbfchar` block openers, `endbfchar` closers, glyph/unicode pair lines) the
generating loop emits.  The hexadecimal rendering of each pair line is pure
formatting and is not modelled. -/
inductive StreamContent where
  | bytes (bs : List Nat)
  | cmapText (face_name : String) (toks : List CmapTok)

/-- Shallow embedding of `lopdf::Object`.  Literal strings carry the `String`
whose UTF-8 bytes the source stores; `Real` carries the numeric value of an
`f64` opaquely (the embedded code never computes with it, it only copies it). -/
inductive LoObject where
  | Integer (i : Int)
  | Real (r : Int)
  | Name (s : String)
  | LitString (s : String)
  | Array (xs : List LoObject)
  | Dictionary (d : List (String × LoObject))
  | Reference (id : Nat × Nat)
  | Stream (dict : List (String × LoObject)) (content : StreamContent)
      (allows_compression : Bool)

/-- Replace-or-append update of a key/value list; embedding of
`lopdf::Dictionary::set` (and of `HashMap::insert` up to entry order, which no
embedded claim observes). -/
def insertPair {α β : Type} [DecidableEq α] (k : α) (v : β) :
    List (α × β) → List (α × β)
  | [] => [(k, v)]
  | (k0, v0) :: t => if k = k0 then (k, v) :: t else (k0, v0) :: insertPair k v t

/-- Embedding of the `lopdf::Document` object store: the running maximum
object number together with the stored objects.  `new_object_id` in lopdf
increments `max_id` and returns `(max_id, 0)`. -/
structure LoDoc where
  max_id : Nat
  objects : List ((Nat × Nat) × LoObject)

/-- Embedding of `lopdf::Document::new_object_id`. -/
def LoDoc.new_object_id (d : LoDoc) : (Nat × Nat) × LoDoc :=
  ((d.max_id + 1, 0), { d with max_id := d.max_id + 1 })

/-- Embedding of `lopdf::Document::add_object`: allocate a fresh id and store
the object under it. -/
def LoDoc.add_object (d : LoDoc) (o : LoObject) : (Nat × Nat) × LoDoc :=
  ((d.max_id + 1, 0),
   { max_id := d.max_id + 1, objects := d.objects ++ [((d.max_id + 1, 0), o)] })

/-- Embedding of `doc.inner_doc.objects.insert(id, obj)` (upsert at a known id). -/
def LoDoc.insert_object (d : LoDoc) (id : Nat × Nat) (o : LoObject) : LoDoc :=
  { d with objects := insertPair id o d.objects }

/-- Interface of the Font Metrics Provider (a parsed freetype `Face`) as
consumed by the embedded code: PostScript name lookup, size metrics
(ascender, descender) whose absence makes `size_metrics()` return `None`,
char-to-glyph lookup, glyph load success, and per-glyph metrics (freetype
returns them as signed machine integers). -/
structure Face where
  postscript_name : Option String
  size_metrics : Option (Int × Int)
  get_char_index : Nat → Nat
  load_glyph_ok : Nat → Bool
  glyph_width : Nat → Int
  glyph_height : Nat → Int

/-- Embedding of the `Font` struct: raw font program bytes plus the extracted
PostScript name. -/
structure Font where
  font_bytes : List Nat
  face_name : String
deriving DecidableEq, Repr

/-- Embedding of the `PartialEq` impl for `Font`: two fonts are equal iff their
names are equal; the contents are not compared. -/
def Font.beq (a b : Font) : Bool :=
  a.face_name == b.face_name

/-- Outcome of `Font::new`: a successful `Font`, the `Err` returned through `?`
when the stream cannot be fully read, or a panic (`unwrap`/`expect`). -/
inductive FontNewResult where
  | ok (font : Font)
  | err
  | panic
deriving DecidableEq, Repr

/-- Embedding of `Font::new`.  The stream argument models `read_to_end`
(either the full byte list or a read failure); `new_memory_face` models the
freetype parser.  `read_to_end(&mut buf)?` propagates the read error;
`new_memory_face(..).unwrap()` and `postscript_name().expect(..)` panic. -/
def Font.new (new_memory_face : List Nat → Option Face)
    (font_stream : Except Unit (List Nat)) : FontNewResult :=
  match font_stream with
  | .error _ => .err
  | .ok buf =>
    match new_memory_face buf with
    | none => .panic
    | some face =>
      match face.postscript_name with
      | none => .panic
      | some nm => .ok { font_bytes := buf, face_name := nm }

/-- Embedding of `IndirectFontRef`: a handle holding a name. -/
structure IndirectFontRef where
  name : String
deriving DecidableEq, Repr

/-- Embedding of `IndirectFontRef::new` as invoked by
`PdfDocumentReference::add_font`: the source formats the argument into
`"F{}"`, and the call site passes the font's PostScript name. -/
def IndirectFontRef.new (index : String) : IndirectFontRef :=
  { name := "F" ++ index }

/-- Embedding of `DirectFontRef`: the allocated object identity plus the raw
font data. -/
structure DirectFontRef where
  inner_obj : Nat × Nat
  data : Font
deriving DecidableEq, Repr

/-- Embedding of `FontList`: the registry mapping handles to embedded font
data (a `HashMap` in the source, modelled as a duplicate-free key/value list). -/
structure FontList where
  fonts : List (IndirectFontRef × DirectFontRef)
deriving DecidableEq, Repr

/-- Embedding of `FontList::new`. -/
def FontList.empty : FontList :=
  { fonts := [] }

/-- Embedding of `FontList::add_font`: insert and hand the reference back. -/
def FontList.add_font (fl : FontList) (font_ref : IndirectFontRef)
    (font : DirectFontRef) : FontList × IndirectFontRef :=
  ({ fonts := insertPair font_ref font fl.fonts }, font_ref)

/-- Embedding of `FontList::get_font`. -/
def FontList.get_font (fl : FontList) (font : IndirectFontRef) :
    Option DirectFontRef :=
  List.lookup font fl.fonts

/-- Embedding of `FontList::len`. -/
def FontList.len (fl : FontList) : Nat :=
  fl.fonts.length

/-- Embedding of `impl Into<lopdf::Dictionary> for FontList`: one `set` per
registry entry, mapping the handle's label to the allocated identity. -/
def FontList.into_dict (fl : FontList) : List (String × LoObject) :=
  fl.fonts.foldl (fun d e => insertPair e.1.name (LoObject.Reference e.2.inner_obj) d) []

/-- Modelled from the spec: `PdfPage` and
`PdfPage::collect_resources_and_streams` live in a source file that is not
under `src/`.  Per the spec a page holds its width/height in PDF points and an
ordered sequence of layers, each an independent content stream, listed here in
layer-creation order; collecting resources yields the page's resource
dictionary entries. -/
structure PdfPage where
  width_pt : Int
  heigth_pt : Int
  resources : List (String × LoObject)
  layer_streams : List (List Nat)

/-- Modelled from the spec: `PdfPage::collect_resources_and_streams` (not under
`src/`) collects the resources needed for rendering the page and returns the
layer content streams in layer-creation order. -/
def PdfPage.collect_resources_and_streams (p : PdfPage) (doc : LoDoc) :
    LoDoc × List (String × LoObject) × List (List Nat) :=
  (doc, p.resources, p.layer_streams)

/-- Modelled from the spec: the result of `PdfMetadata::into_obj` (not under
`src/`), a deterministic function of the live metadata producing the XMP
metadata object, the Info dictionary and the optional ICC profile stream in
lockstep; the document state carries the triple directly. -/
structure PdfMetadataObjs where
  xmp_metadata : LoObject
  document_info : LoObject
  icc_profile : Option (List Nat)

/-- Embedding of the fields of `PdfDocument` that the embedded operations
read or write: pages, the font registry, the inner lopdf document, the
32-character document id fixed at creation, and the metadata (represented by
its `into_obj` result). -/
structure PdfDocState where
  pages : List PdfPage
  fonts : FontList
  inner_doc : LoDoc
  document_id : String
  metadata : PdfMetadataObjs

/-- Outcome of `PdfDocumentReference::add_font`: a returned handle, a
propagated error, or a panic inside `Font::new`. -/
inductive AddFontResult where
  | ok (r : IndirectFontRef)
  | err
  | panic
deriving DecidableEq, Repr

/-- Embedding of `PdfDocumentReference::add_font`: decode the font, build the
handle from the PostScript name, return the existing handle if one is
registered under it, otherwise allocate a fresh object identity and register
the font. -/
def PdfDocumentReference.add_font (new_memory_face : List Nat → Option Face)
    (st : PdfDocState) (font_stream : Except Unit (List Nat)) :
    AddFontResult × PdfDocState :=
  match Font.new new_memory_face font_stream with
  | .err => (.err, st)
  | .panic => (.panic, st)
  | .ok font =>
    let font_ref := IndirectFontRef.new font.face_name
    match st.fonts.get_font font_ref with
    | some _ => (.ok font_ref, st)
    | none =>
      let (oid, inner) := st.inner_doc.new_object_id
      let direct : DirectFontRef := { inner_obj := oid, data := font }
      let (fonts2, font_ref2) := st.fonts.add_font font_ref direct
      (.ok font_ref2, { st with inner_doc := inner, fonts := fonts2 })

/-- Embedding of `PdfPageIndex`. -/
structure PdfPageIndex where
  idx : Nat
deriving DecidableEq, Repr

/-- Embedding of `PdfPageReference` (the document back-pointer is dropped;
only the index is observable). -/
structure PdfPageReference where
  page : PdfPageIndex
deriving DecidableEq, Repr

/-- Embedding of `PdfDocumentReference::get_page`:
`pages.get(page.0).unwrap()` panics (modelled as `none`) when the index is out
of range, otherwise a reference holding exactly the given index is returned. -/
def PdfDocumentReference.get_page (st : PdfDocState) (page : PdfPageIndex) :
    Option PdfPageReference :=
  match st.pages.get? page.idx with
  | none => none
  | some _ => some { page := page }

/-- Insertion into the glyph map ordered by glyph index; embedding of
`BTreeMap::insert` on a map represented as a key-sorted association list
(an existing key's value is overwritten). -/
def insertSorted (k : Nat) (v : Nat × Nat) :
    List (Nat × Nat × Nat) → List (Nat × Nat × Nat)
  | [] => [(k, v.1, v.2)]
  | (k0, v0) :: t =>
    if k < k0 then (k, v.1, v.2) :: (k0, v0) :: t
    else if k = k0 then (k, v.1, v.2) :: t
    else (k0, v0) :: insertSorted k v t

/-- Truncating cast `as u32` on a signed machine integer. -/
def u32cast (x : Int) : Nat :=
  (x % (2 ^ 32 : Nat)).toNat

/-- Accumulator of the glyph enumeration loop in
`Font::into_obj_with_document`: maximum glyph height, running total width and
the glyph map `glyph id -> (unicode, width as u32)`. -/
structure GlyphAcc where
  max_height : Int
  total_width : Int
  cmap : List (Nat × Nat × Nat)
deriving Repr

/-- One iteration of the glyph enumeration loop: look up the glyph index for
the code point, skip it when the index is 0 or the glyph fails to load,
otherwise update the maximum height, the running total width and the map. -/
def glyphStep (face : Face) (acc : GlyphAcc) (unicode : Nat) : GlyphAcc :=
  let glyph_id := face.get_char_index unicode
  if glyph_id ≠ 0 then
    if face.load_glyph_ok glyph_id then
      let w := face.glyph_width glyph_id
      let h := face.glyph_height glyph_id
      { max_height := if acc.max_height < h then h else acc.max_height,
        total_width := acc.total_width + w,
        cmap := insertSorted glyph_id (unicode, u32cast w) acc.cmap }
    else acc
  else acc

/-- Embedding of the glyph enumeration loop `for unicode in 0x0000..0xffff`
(the Rust range excludes `0xffff`), starting from the pre-seeded map
`{0 -> (0, 1000)}`. -/
def glyphLoop (face : Face) : GlyphAcc :=
  (List.range 0xffff).foldl (glyphStep face) ⟨0, 0, [(0, 0, 1000)]⟩

/-- Embedding of the ToUnicode block-generation loop body over the glyph map
entries, threading the loop state (`cur_first_bit`, `last_block_begin`,
`cur_block_id`): whenever the glyph id's high byte (`(glyph_id >> 8) as u16`)
differs from the current block's or `glyph_id > last_block_begin + 100`, the
current block is closed and a new one opened, then the pair line is emitted. -/
def bfLoop (fb lbb bid : Nat) : List (Nat × Nat × Nat) → List CmapTok
  | [] => []
  | e :: rest =>
    let g := e.1
    if (g >>> 8) % 65536 ≠ fb ∨ lbb + 100 < g then
      .endblk :: .begin (bid + 1) :: .pair g e.2.1 ::
        bfLoop ((g >>> 8) % 65536) g (bid + 1) rest
    else
      .pair g e.2.1 :: bfLoop fb lbb bid rest

/-- Embedding of the full ToUnicode CMap body generation (`font.rs` lines
125-153).  Modelled from the spec: the header template
`templates/gid_to_unicode_beg.txt` is not under `src/`; per the spec the CMap
body is a sequence of `beginbfchar .. endbfchar` blocks, so the header is
modelled as opening block `0` (the loop itself only ever closes the current
block before opening the next one).  After the loop, the final block is closed
only when the map size is not divisible by 256 or not divisible by 100. -/
def cmapTokens (entries : List (Nat × Nat × Nat)) : List CmapTok :=
  CmapTok.begin 0 :: bfLoop 0 0 0 entries ++
    (if entries.length % 256 ≠ 0 ∨ entries.length % 100 ≠ 0
      then [CmapTok.endblk] else [])

/-- Embedding of `Font::into_obj_with_document`.  Returns `none` when the
source panics (`new_memory_face(..).unwrap()` or `size_metrics().expect(..)`),
otherwise the updated document and the produced Type0 font dictionary. -/
def Font.into_obj_with_document (new_memory_face : List Nat → Option Face)
    (f : Font) (doc : LoDoc) :
    Option (LoDoc × List (String × LoObject)) :=
  match new_memory_face f.font_bytes with
  | none => none
  | some face =>
    match face.size_metrics with
    | none => none
    | some face_metrics =>
      let face_name := f.face_name
      let font_stream : LoObject :=
        .Stream [("Length1", .Integer (f.font_bytes.length : Int)),
                 ("Subtype", .Name "CIDFontType0C")]
          (.bytes f.font_bytes) false
      let font_vec : List (String × LoObject) :=
        [("Type", .Name "Font"),
         ("Subtype", .Name "Type0"),
         ("BaseFont", .Name face_name),
         ("Encoding", .Name "Identity-H")]
      let font_descriptor_vec : List (String × LoObject) :=
        [("Type", .Name "FontDescriptor"),
         ("FontName", .Name face_name),
         ("Ascent", .Integer face_metrics.1),
         ("Descent", .Integer face_metrics.2),
         ("CapHeight", .Integer face_metrics.1),
         ("ItalicAngle", .Integer 0),
         ("Flags", .Integer 32),
         ("StemV", .Integer 80)]
      let acc := glyphLoop face
      let widths : List LoObject := acc.cmap.map fun e => .Integer (e.2.2 : Int)
      let cid_to_unicode_map_stream : LoObject :=
        .Stream [] (.cmapText face_name (cmapTokens acc.cmap)) true
      let (cid_to_unicode_map_stream_id, doc) :=
        doc.add_object cid_to_unicode_map_stream
      let desc_fonts : List (String × LoObject) :=
        [("Type", .Name "Font"),
         ("Subtype", .Name "CIDFontType0"),
         ("BaseFont", .Name face_name),
         ("W", .Array [.Integer 0, .Array widths]),
         ("CIDSystemInfo", .Dictionary
            [("Registry", .LitString "Adobe"),
             ("Ordering", .LitString "Identity"),
             ("Supplement", .Integer 0)])]
      let font_bbox : List LoObject :=
        [.Integer 0, .Integer acc.max_height, .Integer acc.total_width,
         .Integer acc.max_height]
      let (font_stream_id, doc) := doc.add_object font_stream
      let font_descriptor_vec := font_descriptor_vec ++
        [("FontBBox", .Array font_bbox),
         ("FontFile3", .Reference font_stream_id)]
      let (font_descriptor_vec_id, doc) :=
        doc.add_object (.Dictionary font_descriptor_vec)
      let desc_fonts :=
        insertPair "FontDescriptor" (.Reference font_descriptor_vec_id) desc_fonts
      let font_vec := font_vec ++
        [("DescendantFonts", .Array [.Dictionary desc_fonts]),
         ("ToUnicode", .Reference cid_to_unicode_map_stream_id)]
      some (doc, font_vec)

/-- The fixed entries of a page dictionary built by the save loop:
`MediaBox`/`TrimBox`/`CropBox` from the page's width and height (origin
`[0,0]`), `Rotate 0` and the `Parent` link. -/
def pageDictBase (pages_id : Nat × Nat) (page : PdfPage) :
    List (String × LoObject) :=
  [("Type", .Name "Page"),
   ("Rotate", .Integer 0),
   ("MediaBox", .Array [.Integer 0, .Integer 0,
      .Real page.width_pt, .Real page.heigth_pt]),
   ("TrimBox", .Array [.Integer 0, .Integer 0,
      .Real page.width_pt, .Real page.heigth_pt]),
   ("CropBox", .Array [.Integer 0, .Integer 0,
      .Real page.width_pt, .Real page.heigth_pt]),
   ("Parent", .Reference pages_id)]

/-- Embedding of the per-page body of the save loop: build the page
dictionary, attach the collected resources when non-empty, concatenate the
layer streams into one merged content stream, store it, and store the page
object. -/
def buildPage (pages_id : Nat × Nat) (doc : LoDoc) (page : PdfPage) :
    LoDoc × LoObject :=
  let p : List (String × LoObject) := pageDictBase pages_id page
  let (doc, resources_page, layer_streams) :=
    page.collect_resources_and_streams doc
  let (doc, p) :=
    if resources_page.length > 0 then
      let (resources_page_id, doc) := doc.add_object (.Dictionary resources_page)
      (doc, insertPair "Resources" (.Reference resources_page_id) p)
    else (doc, p)
  let layer_streams_merged_vec :=
    layer_streams.foldl (fun acc s => acc ++ s) []
  let merged_layer_stream : LoObject :=
    .Stream [] (.bytes layer_streams_merged_vec) true
  let (page_content_id, doc) := doc.add_object merged_layer_stream
  let p := insertPair "Contents" (.Reference page_content_id) p
  let (pid, doc) := doc.add_object (.Dictionary p)
  (doc, .Reference pid)

/-- Result of `save`: the final object store plus the three trailer entries the
source sets (`Root`, `Info`, `ID`).  Serialization of this structure to bytes
is performed by lopdf (an external collaborator). -/
structure SaveOutput where
  objects : List ((Nat × Nat) × LoObject)
  max_id : Nat
  trailer_root : LoObject
  trailer_info : LoObject
  trailer_id : LoObject

/-- Embedding of `PdfDocumentReference::save`.  The per-save instance
identifier (drawn from the thread RNG in the source) is passed in as
`instance_id`.  `FontList::into_with_document` is not under `src/`; modelled
from the spec, the registry drains into a Font resource dictionary mapping
each handle's label to its allocated identity reference (matching the
`Into<lopdf::Dictionary>` impl that is under `src/`).  `optimize` is the
debug-build identity. -/
def PdfDocumentReference.save (st : PdfDocState) (instance_id : String) :
    SaveOutput :=
  let doc := st.inner_doc
  let (pages_id, doc) := doc.new_object_id
  let (xmp_metadata_id, doc) := doc.add_object st.metadata.xmp_metadata
  let (document_info_id, doc) := doc.add_object st.metadata.document_info
  let icc_profile_descr := "Commercial and special offset print acccording to ISO 12647-2:2004 / Amd 1, paper type 1 or 2 (matte or gloss-coated offset paper, 115 g/m2), screen ruling 60/cm"
  let icc_profile_str := "Coated FOGRA39 (ISO 12647-2:2004)"
  let icc_profile_short := "FOGRA39"
  let output_intents : List (String × LoObject) :=
    [("S", .Name "GTS_PDFX"),
     ("OutputCondition", .LitString icc_profile_descr),
     ("Type", .Name "OutputIntent"),
     ("OutputConditionIdentifier", .LitString icc_profile_short),
     ("RegistryName", .LitString "http://www.color.org"),
     ("Info", .LitString icc_profile_str)]
  let oi :=
    match st.metadata.icc_profile with
    | some profile =>
      let t := doc.add_object (.Stream [] (.bytes profile) true)
      (insertPair "DestinationOutputProfile" (LoObject.Reference t.1)
        output_intents, t.2)
    | none => (output_intents, doc)
  let output_intents := oi.1
  let doc := oi.2
  let catalog : List (String × LoObject) :=
    [("Type", .Name "Catalog"),
     ("PageLayout", .Name "OneColumn"),
     ("PageMode", .Name "Use0"),
     ("Pages", .Reference pages_id),
     ("Metadata", .Reference xmp_metadata_id),
     ("OutputIntents", .Array [.Dictionary output_intents])]
  let pages : List (String × LoObject) :=
    [("Type", .Name "Pages"),
     ("Count", .Integer (st.pages.length : Int))]
  let fp :=
    st.pages.foldl
      (fun (s : LoDoc × List LoObject) page =>
        let br := buildPage pages_id s.1 page
        (br.1, s.2 ++ [br.2]))
      (doc, [])
  let doc := fp.1
  let page_ids := fp.2
  let pages := insertPair "Kids" (LoObject.Array page_ids) pages
  let fonts_dict := st.fonts.into_dict
  let resources_dict : List (String × LoObject) :=
    if fonts_dict.length > 0 then
      insertPair "Font" (LoObject.Dictionary fonts_dict) ([] : List (String × LoObject))
    else []
  let pages :=
    if resources_dict.length > 0 then
      insertPair "Resources" (LoObject.Dictionary resources_dict) pages
    else pages
  let doc := doc.insert_object pages_id (.Dictionary pages)
  let (catalog_id, doc) := doc.add_object (.Dictionary catalog)
  { objects := doc.objects,
    max_id := doc.max_id,
    trailer_root := .Reference catalog_id,
    trailer_info := .Reference document_info_id,
    trailer_id := .Array [.LitString st.document_id, .LitString instance_id] }

/-- Decimal digit characters of `n` (most significant first), written with
explicit fuel so that it is structurally recursive; `decimalStr` below renders
exactly the decimal notation Rust's formatter produces. -/
def digitsAux : Nat → Nat → List Char
  | 0, _ => []
  | fuel + 1, n =>
    if n < 10 then [Char.ofNat (48 + n)]
    else digitsAux fuel (n / 10) ++ [Char.ofNat (48 + n % 10)]

/-- Decimal rendering of a natural number. -/
def decimalStr (n : Nat) : String :=
  ⟨digitsAux (n + 1) n⟩

/-- Zero left-padding to a minimum width; embedding of Rust's `{:0w}` format
specification applied to a rendered number. -/
def zeroPad (w : Nat) (s : String) : String :=
  ⟨List.replicate (w - s.length) '0'⟩ ++ s

/-- Modelled from the spec: `OffsetDateTime` is defined at the crate root,
which is not under `src/`; per the spec all times are normalized to UTC before
formatting, and the formatter reads the numeric year, month, day, hour, minute
and second fields. -/
structure UtcDateTime where
  year : Nat
  month : Nat
  day : Nat
  hour : Nat
  minute : Nat
  second : Nat
deriving DecidableEq, Repr

/-- Embedding of `to_pdf_time_stamp_metadata`:
`format!("D:{:04}{:02}{:02}{:02}{:02}{:02}+00'00'", ..)` over the six UTC
fields. -/
def to_pdf_time_stamp_metadata (date : UtcDateTime) : String :=
  "D:" ++ zeroPad 4 (decimalStr date.year)
       ++ zeroPad 2 (decimalStr date.month)
       ++ zeroPad 2 (decimalStr date.day)
       ++ zeroPad 2 (decimalStr date.hour)
       ++ zeroPad 2 (decimalStr date.minute)
       ++ zeroPad 2 (decimalStr date.second)
       ++ "+00\x2700\x27"

/-- A concrete Font Metrics Provider face used to instantiate
hypothesis-bearing theorems: it resolves a PostScript name and size metrics
but maps every code point to glyph 0. -/
def exampleFace : Face :=
  { postscript_name := some "ExampleSans",
    size_metrics := some (800, -200),
    get_char_index := fun _ => 0,
    load_glyph_ok := fun _ => true,
    glyph_width := fun _ => 500,
    glyph_height := fun _ => 700 }

/-- A concrete parser that accepts any byte sequence as `exampleFace`. -/
def exampleProvider : List Nat → Option Face :=
  fun _ => some exampleFace

/-- A concrete parser that rejects every byte sequence. -/
def exampleProviderFail : List Nat → Option Face :=
  fun _ => none

/-- A concrete page with two layers. -/
def examplePage : PdfPage :=
  { width_pt := 595, heigth_pt := 842, resources := [],
    layer_streams := [[1, 2], [3]] }

/-- A concrete document state with one page and an empty font registry. -/
def exampleDoc : PdfDocState :=
  { pages := [examplePage],
    fonts := FontList.empty,
    inner_doc := { max_id := 0, objects := [] },
    document_id := "ABCDEFGHIJKLMNOPQRSTUVWXYZ012345",
    metadata := { xmp_metadata := .Integer 0, document_info := .Integer 0,
                  icc_profile := none } }

/-- C10: `get_page` with an out-of-range page index panics (the embedded
outcome is `none`, modelling the `unwrap` of a `None`), and with an in-range
index returns a page reference designating exactly that index. -/
theorem C10_get_page_in_range_iff (st : PdfDocState) (page : PdfPageIndex) :
    (st.pages.length ≤ page.idx →
      PdfDocumentReference.get_page st page = none) ∧
    (page.idx < st.pages.length →
      PdfDocumentReference.get_page st page = some { page := page }) := by
  constructor
  · intro h
    unfold PdfDocumentReference.get_page
    rw [List.get?_eq_none.mpr h]
  · intro h
    unfold PdfDocumentReference.get_page
    rw [List.get?_eq_get h]

/-- C10 witness: both branches of the theorem at a concrete document with one
page. -/
theorem C10_witness :
    PdfDocumentReference.get_page exampleDoc ⟨1⟩ = none ∧
    PdfDocumentReference.get_page exampleDoc ⟨0⟩ = some ⟨⟨0⟩⟩ :=
  ⟨(C10_get_page_in_range_iff exampleDoc ⟨1⟩).1 (by decide),
   (C10_get_page_in_range_iff exampleDoc ⟨0⟩).2 (by decide)⟩

/-- C9: when `add_font` returns the decode error, the document state is
returned exactly as it was: no handle is created, no identity slot is
allocated, no partial registration is visible. -/
theorem C9_add_font_error_no_mutation (new_memory_face : List Nat → Option Face)
    (st : PdfDocState) (font_stream : Except Unit (List Nat))
    (r : AddFontResult) (st2 : PdfDocState)
    (h : PdfDocumentReference.add_font new_memory_face st font_stream = (r, st2))
    (he : r = .err) : st2 = st := by
  subst he
  unfold PdfDocumentReference.add_font at h
  cases hf : Font.new new_memory_face font_stream <;> rw [hf] at h
  case ok font =>
    cases hg : (st.fonts.get_font (IndirectFontRef.new font.face_name)) <;>
      simp [hg] at h
  case err => exact (Prod.mk.injEq _ _ _ _ ▸ h).2.symm
  case panic => simp at h

/-- C9 witness: a failing read stream at a concrete state. -/
theorem C9_witness : exampleDoc = exampleDoc :=
  C9_add_font_error_no_mutation exampleProvider exampleDoc (Except.error ())
    .err exampleDoc rfl rfl

/-- C3 counterexample: for font bytes that the Font Metrics Provider cannot
parse, `Font::new` panics (it `unwrap`s the parse result) instead of returning
an error value, contradicting the claim that every decode failure yields a
`FontDecodeError`-class error return. -/
theorem C3_counterexample :
    Font.new exampleProviderFail (Except.ok [0]) = FontNewResult.panic ∧
    FontNewResult.panic ≠ FontNewResult.err :=
  ⟨rfl, by decide⟩

/-- C3 (amended): `Font::new` returns an error exactly when the stream cannot
be fully read; an unparseable font or an unresolvable PostScript name makes it
panic rather than return an error; on success it returns a `Font` holding
exactly the bytes read and the resolved PostScript name. -/
theorem C3_font_new_amended (new_memory_face : List Nat → Option Face) :
    (∀ e, Font.new new_memory_face (Except.error e) = .err) ∧
    (∀ buf, new_memory_face buf = none →
      Font.new new_memory_face (Except.ok buf) = .panic) ∧
    (∀ buf face, new_memory_face buf = some face →
      face.postscript_name = none →
      Font.new new_memory_face (Except.ok buf) = .panic) ∧
    (∀ buf face nm, new_memory_face buf = some face →
      face.postscript_name = some nm →
      Font.new new_memory_face (Except.ok buf) =
        .ok { font_bytes := buf, face_name := nm }) := by
  refine ⟨fun e => rfl, fun buf h => ?_, fun buf face h1 h2 => ?_,
    fun buf face nm h1 h2 => ?_⟩
  · simp [Font.new, h]
  · simp [Font.new, h1, h2]
  · simp [Font.new, h1, h2]

/-- C3 witness: the amended behaviour at concrete inputs: parse failure
panics; successful decode returns the bytes and the name. -/
theorem C3_witness :
    Font.new exampleProviderFail (Except.ok [0]) = .panic ∧
    Font.new exampleProvider (Except.ok [7, 8]) =
      .ok { font_bytes := [7, 8], face_name := "ExampleSans" } :=
  ⟨(C3_font_new_amended exampleProviderFail).2.1 [0] rfl,
   (C3_font_new_amended exampleProvider).2.2.2 [7, 8] exampleFace
     "ExampleSans" rfl rfl⟩

/-- C7: `save` is deterministic given the document state; two saves of the
same state differ only in the per-save instance identifier, which appears
exclusively as the second element of the trailer `ID` array, whose first
element is the fixed document identifier. -/
theorem C7_save_deterministic_up_to_instance_id (st : PdfDocState)
    (i1 i2 : String) :
    (PdfDocumentReference.save st i1).objects =
      (PdfDocumentReference.save st i2).objects ∧
    (PdfDocumentReference.save st i1).max_id =
      (PdfDocumentReference.save st i2).max_id ∧
    (PdfDocumentReference.save st i1).trailer_root =
      (PdfDocumentReference.save st i2).trailer_root ∧
    (PdfDocumentReference.save st i1).trailer_info =
      (PdfDocumentReference.save st i2).trailer_info ∧
    (PdfDocumentReference.save st i1).trailer_id =
      .Array [.LitString st.document_id, .LitString i1] ∧
    (PdfDocumentReference.save st i2).trailer_id =
      .Array [.LitString st.document_id, .LitString i2] :=
  ⟨rfl, rfl, rfl, rfl, rfl, rfl⟩

/-- A nonzero key is inserted strictly behind the pre-seeded head entry for
glyph 0. -/
theorem insertSorted_cons_zero (k : Nat) (v : Nat × Nat) (a b : Nat)
    (t : List (Nat × Nat × Nat)) (hk : k ≠ 0) :
    insertSorted k v ((0, a, b) :: t) = (0, a, b) :: insertSorted k v t := by
  simp only [insertSorted]
  simp [hk]

/-- One glyph-loop step keeps the pre-seeded head entry of the map. -/
theorem glyphStep_head (face : Face) (acc : GlyphAcc) (u : Nat) (a b : Nat)
    (t : List (Nat × Nat × Nat)) (h : acc.cmap = (0, a, b) :: t) :
    ∃ t2, (glyphStep face acc u).cmap = (0, a, b) :: t2 := by
  unfold glyphStep
  by_cases h0 : face.get_char_index u = 0
  · exact ⟨t, by simp [h0, h]⟩
  · by_cases hl : face.load_glyph_ok (face.get_char_index u) = true
    · refine ⟨insertSorted (face.get_char_index u)
        (u, u32cast (face.glyph_width (face.get_char_index u))) t, ?_⟩
      simp only [h0, hl, if_true, ne_eq, not_false_eq_true]
      rw [h, insertSorted_cons_zero _ _ _ _ _ h0]
    · exact ⟨t, by simp [h0, hl, h]⟩

/-- The glyph-loop fold keeps the pre-seeded head entry of the map. -/
theorem glyphFold_head (face : Face) (l : List Nat) (a b : Nat) :
    ∀ acc : GlyphAcc, (∃ t, acc.cmap = (0, a, b) :: t) →
      ∃ t, (l.foldl (glyphStep face) acc).cmap = (0, a, b) :: t := by
  induction l with
  | nil => exact fun acc h => h
  | cons u l ih =>
    intro acc h
    obtain ⟨t, ht⟩ := h
    exact ih _ (glyphStep_head face acc u a b t ht)

/-- C5: for every input font, the glyph map built by the embedding pipeline
maps glyph index 0 to Unicode value 0 with width 1000: the entry is pre-seeded
and the enumeration loop skips every code point whose glyph index is 0, so it
is never overwritten. -/
theorem C5_glyph_zero_is_notdef (face : Face) :
    ((glyphLoop face).cmap).lookup 0 = some (0, 1000) := by
  obtain ⟨t, ht⟩ := glyphFold_head face (List.range 0xffff) 0 1000
    ⟨0, 0, [(0, 0, 1000)]⟩ ⟨[], rfl⟩
  unfold glyphLoop
  rw [ht]
  simp [List.lookup]

/-- When a face resolves no glyph at all, every loop step is the identity, so
the glyph map stays exactly the pre-seeded notdef entry. -/
theorem glyphLoop_no_glyphs (face : Face)
    (h : ∀ u, face.get_char_index u = 0) :
    glyphLoop face = ⟨0, 0, [(0, 0, 1000)]⟩ := by
  unfold glyphLoop
  generalize List.range 0xffff = l
  induction l with
  | nil => rfl
  | cons u l ih =>
    rw [List.foldl_cons]
    have hstep : glyphStep face ⟨0, 0, [(0, 0, 1000)]⟩ u = ⟨0, 0, [(0, 0, 1000)]⟩ := by
      unfold glyphStep
      simp [h u]
    rw [hstep, ih]

/-- Number of boundaries crossed while iterating the glyph map entries: an
entry crosses a boundary when its glyph id's high byte differs from the
current block's high byte or the glyph id exceeds the block start by more
than 100 (the exact condition of the generation loop, threaded through the
same state updates). -/
def countBoundaries (fb lbb : Nat) : List (Nat × Nat × Nat) → Nat
  | [] => 0
  | e :: rest =>
    if (e.1 >>> 8) % 65536 ≠ fb ∨ lbb + 100 < e.1 then
      countBoundaries ((e.1 >>> 8) % 65536) e.1 rest + 1
    else countBoundaries fb lbb rest

/-- Number of `beginbfchar` block openers among the tokens. -/
def beginCount (ts : List CmapTok) : Nat :=
  ts.countP fun t => match t with | .begin _ => true | _ => false

/-- The grouping of the emitted glyph/unicode pairs into blocks induced by the
boundary condition: the first component is the remainder of the currently open
block, the second the pair lists of the subsequently opened blocks. -/
def bfSplit (fb lbb : Nat) : List (Nat × Nat × Nat) →
    List (Nat × Nat) × List (List (Nat × Nat))
  | [] => ([], [])
  | e :: rest =>
    if (e.1 >>> 8) % 65536 ≠ fb ∨ lbb + 100 < e.1 then
      let s := bfSplit ((e.1 >>> 8) % 65536) e.1 rest
      ([], ((e.1, e.2.1) :: s.1) :: s.2)
    else
      let s := bfSplit fb lbb rest
      ((e.1, e.2.1) :: s.1, s.2)

/-- Properly opened-and-closed rendering of a list of blocks with consecutive
block ids: each block is a `beginbfchar` opener, its pair lines, and an
`endbfchar` closer. -/
def renderBlocks (bid : Nat) : List (List (Nat × Nat)) → List CmapTok
  | [] => []
  | ps :: rest =>
    (CmapTok.begin bid :: ps.map fun p => CmapTok.pair p.1 p.2) ++
      [CmapTok.endblk] ++ renderBlocks (bid + 1) rest

/-- The token sequence of an open block followed by the generation loop and a
final closer is exactly the rendering of the block grouping. -/
theorem bfLoop_renderBlocks (entries : List (Nat × Nat × Nat)) :
    ∀ fb lbb bid,
      CmapTok.begin bid :: bfLoop fb lbb bid entries ++ [CmapTok.endblk] =
        renderBlocks bid
          ((bfSplit fb lbb entries).1 :: (bfSplit fb lbb entries).2) := by
  induction entries with
  | nil => intro fb lbb bid; simp [bfLoop, bfSplit, renderBlocks]
  | cons e rest ih =>
    intro fb lbb bid
    by_cases hc : (e.1 >>> 8) % 65536 ≠ fb ∨ lbb + 100 < e.1
    · simp only [bfLoop, bfSplit, if_pos hc]
      have h2 := ih ((e.1 >>> 8) % 65536) e.1 (bid + 1)
      simp only [renderBlocks, List.map_cons, List.map_nil, List.cons_append,
        List.nil_append, List.singleton_append, List.append_assoc,
        List.cons.injEq, true_and] at h2
      simp only [renderBlocks, List.map_cons, List.map_nil, List.cons_append,
        List.nil_append, List.singleton_append, List.append_assoc]
      rw [h2]
    · simp only [bfLoop, bfSplit, if_neg hc]
      have h2 := ih fb lbb bid
      simp only [renderBlocks, List.map_cons, List.map_nil, List.cons_append,
        List.nil_append, List.singleton_append, List.append_assoc,
        List.cons.injEq, true_and] at h2
      simp only [renderBlocks, List.map_cons, List.map_nil, List.cons_append,
        List.nil_append, List.singleton_append, List.append_assoc]
      rw [h2]

/-- The pairs of the block grouping, concatenated in order, are exactly the
glyph/unicode pairs of the entries, each appearing once. -/
theorem bfSplit_join (entries : List (Nat × Nat × Nat)) :
    ∀ fb lbb, (bfSplit fb lbb entries).1 ++ (bfSplit fb lbb entries).2.join =
      entries.map fun e => (e.1, e.2.1) := by
  induction entries with
  | nil => intro fb lbb; rfl
  | cons e rest ih =>
    intro fb lbb
    by_cases hc : (e.1 >>> 8) % 65536 ≠ fb ∨ lbb + 100 < e.1
    · simp only [bfSplit, if_pos hc, List.map_cons, List.join_cons,
        List.nil_append, List.cons_append]
      rw [ih ((e.1 >>> 8) % 65536) e.1]
    · simp only [bfSplit, if_neg hc, List.map_cons, List.cons_append]
      rw [ih fb lbb]

/-- The number of blocks opened after the initial one equals the number of
boundaries crossed. -/
theorem bfSplit_length (entries : List (Nat × Nat × Nat)) :
    ∀ fb lbb, (bfSplit fb lbb entries).2.length = countBoundaries fb lbb entries := by
  induction entries with
  | nil => intro fb lbb; rfl
  | cons e rest ih =>
    intro fb lbb
    by_cases hc : (e.1 >>> 8) % 65536 ≠ fb ∨ lbb + 100 < e.1
    · simp only [bfSplit, countBoundaries, if_pos hc, List.length_cons]
      rw [ih ((e.1 >>> 8) % 65536) e.1]
    · simp only [bfSplit, countBoundaries, if_neg hc]
      rw [ih fb lbb]

/-- A rendered block list contains exactly one `beginbfchar` opener per block. -/
theorem beginCount_renderBlocks (bs : List (List (Nat × Nat))) :
    ∀ bid, beginCount (renderBlocks bid bs) = bs.length := by
  induction bs with
  | nil => intro bid; rfl
  | cons ps rest ih =>
    intro bid
    have hmap : List.countP
        (fun t => match t with | CmapTok.begin _ => true | _ => false)
        (ps.map fun p => CmapTok.pair p.1 p.2) = 0 := by
      rw [List.countP_eq_zero]
      intro a ha
      obtain ⟨p, _, rfl⟩ := List.mem_map.mp ha
      simp
    simp only [renderBlocks, beginCount, List.countP_append, List.countP_cons,
      hmap, List.length_cons] at ih ⊢
    rw [ih (bid + 1)]
    simp [Nat.add_comm]

/-- C2 counterexample: for a font that resolves no glyph, the glyph map is the
single pre-seeded notdef entry, which crosses no boundary, yet the generated
CMap consists of one block (the one the header opens); so the block count is
the boundary count plus one, not the boundary count. -/
theorem C2_counterexample :
    beginCount (cmapTokens (glyphLoop exampleFace).cmap) ≠
      countBoundaries 0 0 (glyphLoop exampleFace).cmap := by
  rw [glyphLoop_no_glyphs exampleFace fun u => rfl]
  decide

/-- C2 (amended): iterating the glyph map in increasing glyph-index order, a
new `beginbfchar` block is started exactly at the boundary condition (high
byte change or `glyph_id > block_start + 100`); the block count equals the
number of boundaries crossed plus one (the block the header template opens);
and whenever the map size is not divisible by both 256 and 100, the token
sequence is exactly a properly opened-and-closed rendering of the blocks, in
which every glyph/unicode pair appears exactly once (when the size divides
both, the final `endbfchar` is omitted). -/
theorem C2_cmap_blocks_amended (entries : List (Nat × Nat × Nat)) :
    beginCount (cmapTokens entries) = countBoundaries 0 0 entries + 1 ∧
    (entries.length % 256 ≠ 0 ∨ entries.length % 100 ≠ 0 →
      ∃ headBlock restBlocks,
        cmapTokens entries = renderBlocks 0 (headBlock :: restBlocks) ∧
        headBlock ++ restBlocks.join = entries.map (fun e => (e.1, e.2.1)) ∧
        restBlocks.length = countBoundaries 0 0 entries) := by
  constructor
  · have hkey := bfLoop_renderBlocks entries 0 0 0
    have h1 : beginCount (cmapTokens entries) =
        beginCount (CmapTok.begin 0 :: bfLoop 0 0 0 entries ++ [CmapTok.endblk]) := by
      unfold cmapTokens beginCount
      by_cases hif : entries.length % 256 ≠ 0 ∨ entries.length % 100 ≠ 0
      · rw [if_pos hif]
      · rw [if_neg hif]
        simp [List.countP_append, List.countP_cons]
    rw [h1, hkey, beginCount_renderBlocks]
    simp [bfSplit_length]
  · intro hif
    refine ⟨(bfSplit 0 0 entries).1, (bfSplit 0 0 entries).2, ?_, ?_, ?_⟩
    · unfold cmapTokens
      rw [if_pos hif]
      exact bfLoop_renderBlocks entries 0 0 0
    · exact bfSplit_join entries 0 0
    · exact bfSplit_length entries 0 0

/-- C2 witness: the amended statement at the one-entry glyph map of a font
with no resolvable glyph. -/
theorem C2_witness :
    (([(0, 0, 1000)] : List (Nat × Nat × Nat)).length % 256 ≠ 0 ∨
      ([(0, 0, 1000)] : List (Nat × Nat × Nat)).length % 100 ≠ 0) ∧
    beginCount (cmapTokens [(0, 0, 1000)]) =
      countBoundaries 0 0 [(0, 0, 1000)] + 1 ∧
    (∃ headBlock restBlocks,
      cmapTokens [(0, 0, 1000)] = renderBlocks 0 (headBlock :: restBlocks) ∧
      headBlock ++ restBlocks.join =
        ([(0, 0, 1000)] : List (Nat × Nat × Nat)).map (fun e => (e.1, e.2.1)) ∧
      restBlocks.length = countBoundaries 0 0 [(0, 0, 1000)]) :=
  ⟨by decide, (C2_cmap_blocks_amended [(0, 0, 1000)]).1,
   (C2_cmap_blocks_amended [(0, 0, 1000)]).2 (by decide)⟩

/-- Looking up the just-inserted key returns the just-inserted value. -/
theorem lookup_insertPair_self {α β : Type} [DecidableEq α] (k : α) (v : β) :
    ∀ l : List (α × β), List.lookup k (insertPair k v l) = some v := by
  intro l
  induction l with
  | nil => simp [insertPair, List.lookup]
  | cons e t ih =>
    obtain ⟨k0, v0⟩ := e
    by_cases hk : k = k0
    · simp [insertPair, hk, List.lookup]
    · have hb : (k == k0) = false := beq_eq_false_iff_ne.mpr hk
      simp [insertPair, hk, List.lookup, hb, ih]

/-- The keys after a replace-or-append insert are the old keys plus the
inserted one. -/
theorem mem_keys_insertPair {α β : Type} [DecidableEq α] (k : α) (v : β)
    (a : α) : ∀ l : List (α × β),
      a ∈ (insertPair k v l).map Prod.fst ↔ a = k ∨ a ∈ l.map Prod.fst := by
  intro l
  induction l with
  | nil => simp [insertPair]
  | cons e t ih =>
    obtain ⟨k0, v0⟩ := e
    by_cases hk : k = k0
    · subst hk
      simp [insertPair]
    · simp only [insertPair, hk, if_false, List.map_cons, List.mem_cons, ih]
      tauto

/-- Replace-or-append insertion preserves duplicate-freeness of the keys. -/
theorem nodup_keys_insertPair {α β : Type} [DecidableEq α] (k : α) (v : β) :
    ∀ l : List (α × β), (l.map Prod.fst).Nodup →
      ((insertPair k v l).map Prod.fst).Nodup := by
  intro l
  induction l with
  | nil => simp [insertPair]
  | cons e t ih =>
    obtain ⟨k0, v0⟩ := e
    intro hnd
    simp only [List.map_cons, List.nodup_cons] at hnd
    by_cases hk : k = k0
    · subst hk
      simpa [insertPair] using hnd
    · simp only [insertPair, hk, if_false, List.map_cons, List.nodup_cons]
      refine ⟨?_, ih hnd.2⟩
      rw [mem_keys_insertPair]
      rintro (h | h)
      · exact hk h.symm
      · exact hnd.1 h

/-- A successful lookup means the key is among the keys. -/
theorem mem_keys_of_lookup_some {α β : Type} [DecidableEq α] {k : α} {v : β} :
    ∀ {l : List (α × β)}, List.lookup k l = some v → k ∈ l.map Prod.fst := by
  intro l
  induction l with
  | nil => intro h; simp [List.lookup] at h
  | cons e t ih =>
    intro h
    obtain ⟨k0, v0⟩ := e
    by_cases hk : k = k0
    · simp [hk]
    · have hb : (k == k0) = false := beq_eq_false_iff_ne.mpr hk
      simp only [List.lookup, hb] at h
      exact List.mem_cons_of_mem _ (ih h)

/-- In a key/value list with duplicate-free keys, a present key has exactly
one entry. -/
theorem countP_key_eq_one {α β : Type} [DecidableEq α] (l : List (α × β)) (k : α)
    (hnd : (l.map Prod.fst).Nodup) (hmem : k ∈ l.map Prod.fst) :
    l.countP (fun e => e.1 == k) = 1 := by
  have h1 : l.countP (fun e => e.1 == k) = (l.map Prod.fst).count k := by
    simp only [List.count, List.countP_map]
    rfl
  rw [h1]
  exact List.count_eq_one_of_mem hnd hmem

/-- Keys of a fold of replace-or-append inserts. -/
theorem foldl_insertPair_mem_keys {α β γ : Type} [DecidableEq α]
    (f : γ → α) (g : γ → β) (l : List γ) :
    ∀ (d : List (α × β)) (a : α),
      (a ∈ ((l.foldl (fun d e => insertPair (f e) (g e) d) d).map Prod.fst)) ↔
        a ∈ d.map Prod.fst ∨ a ∈ l.map f := by
  induction l with
  | nil => intro d a; simp
  | cons e t ih =>
    intro d a
    rw [List.foldl_cons, ih, mem_keys_insertPair]
    simp
    tauto

/-- A fold of replace-or-append inserts preserves duplicate-free keys. -/
theorem foldl_insertPair_nodup_keys {α β γ : Type} [DecidableEq α]
    (f : γ → α) (g : γ → β) (l : List γ) :
    ∀ d : List (α × β), (d.map Prod.fst).Nodup →
      ((l.foldl (fun d e => insertPair (f e) (g e) d) d).map Prod.fst).Nodup := by
  induction l with
  | nil => exact fun d h => h
  | cons e t ih =>
    intro d hd
    exact ih _ (nodup_keys_insertPair _ _ _ hd)

/-- C1: registering two font byte streams that decode to the same PostScript
name yields the same handle; the second call performs no second embedding (the
state is exactly the state after the first call, so no identity slot is
allocated and the new bytes are discarded), and both the registry and the Font
resource dictionary built from it hold exactly one entry for that name. -/
theorem C1_add_font_dedup (new_memory_face : List Nat → Option Face)
    (st : PdfDocState) (s1 s2 : Except Unit (List Nat)) (f1 f2 : Font)
    (h1 : Font.new new_memory_face s1 = .ok f1)
    (h2 : Font.new new_memory_face s2 = .ok f2)
    (heq : Font.beq f1 f2 = true)
    (hwf : (st.fonts.fonts.map Prod.fst).Nodup) :
    ∃ r st1,
      PdfDocumentReference.add_font new_memory_face st s1 = (.ok r, st1) ∧
      PdfDocumentReference.add_font new_memory_face st1 s2 = (.ok r, st1) ∧
      st1.fonts.fonts.countP (fun e => e.1 == r) = 1 ∧
      (FontList.into_dict st1.fonts).countP (fun e => e.1 == r.name) = 1 := by
  have hname : f2.face_name = f1.face_name := by
    unfold Font.beq at heq
    exact (eq_of_beq heq).symm
  have hnamemem : ∀ fl : FontList,
      IndirectFontRef.new f1.face_name ∈ fl.fonts.map Prod.fst →
      (IndirectFontRef.new f1.face_name).name ∈
        fl.fonts.map fun e => e.1.name := by
    intro fl hm
    obtain ⟨e, he, hfst⟩ := List.mem_map.mp hm
    exact List.mem_map.mpr ⟨e, he, by rw [hfst]⟩
  have hdict : ∀ fl : FontList,
      IndirectFontRef.new f1.face_name ∈ fl.fonts.map Prod.fst →
      (FontList.into_dict fl).countP
        (fun e => e.1 == (IndirectFontRef.new f1.face_name).name) = 1 := by
    intro fl hm
    unfold FontList.into_dict
    refine countP_key_eq_one _ _ ?_ ?_
    · exact foldl_insertPair_nodup_keys (fun e => e.1.name)
        (fun e => LoObject.Reference e.2.inner_obj) fl.fonts [] (by simp)
    · rw [foldl_insertPair_mem_keys (fun e => e.1.name)
        (fun e => LoObject.Reference e.2.inner_obj) fl.fonts []]
      exact Or.inr (hnamemem fl hm)
  cases hg : st.fonts.get_font (IndirectFontRef.new f1.face_name) with
  | some d =>
    refine ⟨IndirectFontRef.new f1.face_name, st, ?_, ?_, ?_, ?_⟩
    · unfold PdfDocumentReference.add_font
      rw [h1]
      simp [hg]
    · unfold PdfDocumentReference.add_font
      rw [h2]
      simp [hname, hg]
    · exact countP_key_eq_one _ _ hwf (mem_keys_of_lookup_some hg)
    · exact hdict st.fonts (mem_keys_of_lookup_some hg)
  | none =>
    refine ⟨IndirectFontRef.new f1.face_name,
      { pages := st.pages,
        fonts := ⟨insertPair (IndirectFontRef.new f1.face_name)
          ⟨(st.inner_doc.max_id + 1, 0), f1⟩ st.fonts.fonts⟩,
        inner_doc := { st.inner_doc with max_id := st.inner_doc.max_id + 1 },
        document_id := st.document_id,
        metadata := st.metadata }, ?_, ?_, ?_, ?_⟩
    · unfold PdfDocumentReference.add_font
      rw [h1]
      simp [hg, LoDoc.new_object_id, FontList.add_font]
    · unfold PdfDocumentReference.add_font
      rw [h2]
      have hg2 : FontList.get_font
          ⟨insertPair (IndirectFontRef.new f1.face_name)
            ⟨(st.inner_doc.max_id + 1, 0), f1⟩ st.fonts.fonts⟩
          (IndirectFontRef.new f1.face_name) =
          some ⟨(st.inner_doc.max_id + 1, 0), f1⟩ := by
        unfold FontList.get_font
        exact lookup_insertPair_self _ _ _
      simp [hname, hg2]
    · refine countP_key_eq_one _ _ ?_ ?_
      · exact nodup_keys_insertPair _ _ _ hwf
      · rw [mem_keys_insertPair]
        exact Or.inl rfl
    · refine hdict _ ?_
      rw [mem_keys_insertPair]
      exact Or.inl rfl

/-- C1 witness: registering two different byte streams that both decode to the
PostScript name of `exampleFace`, starting from the empty registry. -/
theorem C1_witness :
    ∃ r st1,
      PdfDocumentReference.add_font exampleProvider exampleDoc
        (Except.ok [1]) = (.ok r, st1) ∧
      PdfDocumentReference.add_font exampleProvider st1
        (Except.ok [2]) = (.ok r, st1) ∧
      st1.fonts.fonts.countP (fun e => e.1 == r) = 1 ∧
      (FontList.into_dict st1.fonts).countP (fun e => e.1 == r.name) = 1 :=
  C1_add_font_dedup exampleProvider exampleDoc (Except.ok [1]) (Except.ok [2])
    ⟨[1], "ExampleSans"⟩ ⟨[2], "ExampleSans"⟩ rfl rfl (by decide) (by decide)

/-- The source's stream-merge loop (`append` into an accumulator vector)
computes the concatenation of the layer streams. -/
theorem foldl_append_eq_join (ls : List (List Nat)) :
    ls.foldl (fun acc s => acc ++ s) [] = ls.join := by
  suffices h : ∀ acc : List Nat,
      ls.foldl (fun acc s => acc ++ s) acc = acc ++ ls.join by
    simpa using h []
  induction ls with
  | nil => intro acc; simp
  | cons s t ih => intro acc; simp [ih]

/-- C6: the content stream attached to a page object is exactly the
byte-concatenation of the page's layer content streams in layer-creation
order, with nothing inserted between or around them. -/
theorem C6_page_contents_concat_layers (pages_id : Nat × Nat) (doc : LoDoc)
    (page : PdfPage) :
    ∃ doc2 n pdict,
      buildPage pages_id doc page = (doc2, .Reference (n + 1, 0)) ∧
      (∃ pre, doc2.objects = doc.objects ++ pre ++
        [((n, 0), .Stream [] (.bytes page.layer_streams.join) true),
         ((n + 1, 0), .Dictionary pdict)]) ∧
      pdict.lookup "Contents" = some (.Reference (n, 0)) := by
  by_cases hr : page.resources.length > 0
  · have hb : buildPage pages_id doc page =
        ({ max_id := doc.max_id + 1 + 1 + 1,
           objects := doc.objects ++
             [((doc.max_id + 1, 0), .Dictionary page.resources)] ++
             [((doc.max_id + 1 + 1, 0),
               .Stream [] (.bytes page.layer_streams.join) true)] ++
             [((doc.max_id + 1 + 1 + 1, 0),
               .Dictionary (insertPair "Contents"
                 (.Reference (doc.max_id + 1 + 1, 0))
                 (insertPair "Resources" (.Reference (doc.max_id + 1, 0))
                   (pageDictBase pages_id page))))] },
         .Reference (doc.max_id + 1 + 1 + 1, 0)) := by
      unfold buildPage PdfPage.collect_resources_and_streams
      simp [hr, LoDoc.add_object, foldl_append_eq_join]
    refine ⟨_, doc.max_id + 1 + 1,
      insertPair "Contents" (.Reference (doc.max_id + 1 + 1, 0))
        (insertPair "Resources" (.Reference (doc.max_id + 1, 0))
          (pageDictBase pages_id page)), hb, ?_, ?_⟩
    · exact ⟨[((doc.max_id + 1, 0), .Dictionary page.resources)], by simp⟩
    · exact lookup_insertPair_self _ _ _
  · have hb : buildPage pages_id doc page =
        ({ max_id := doc.max_id + 1 + 1,
           objects := doc.objects ++
             [((doc.max_id + 1, 0),
               .Stream [] (.bytes page.layer_streams.join) true)] ++
             [((doc.max_id + 1 + 1, 0),
               .Dictionary (insertPair "Contents"
                 (.Reference (doc.max_id + 1, 0))
                 (pageDictBase pages_id page)))] },
         .Reference (doc.max_id + 1 + 1, 0)) := by
      unfold buildPage PdfPage.collect_resources_and_streams
      simp [hr, LoDoc.add_object, foldl_append_eq_join]
    refine ⟨_, doc.max_id + 1,
      insertPair "Contents" (.Reference (doc.max_id + 1, 0))
        (pageDictBase pages_id page), hb, ?_, ?_⟩
    · exact ⟨[], by simp⟩
    · exact lookup_insertPair_self _ _ _

/-- An element of a sorted insert is the inserted pair or an old element. -/
theorem mem_insertSorted (k : Nat) (v : Nat × Nat) (x : Nat × Nat × Nat) :
    ∀ l, x ∈ insertSorted k v l → x = (k, v.1, v.2) ∨ x ∈ l := by
  intro l
  induction l with
  | nil => intro h; simpa [insertSorted] using h
  | cons e t ih =>
    obtain ⟨k0, v0⟩ := e
    intro h
    unfold insertSorted at h
    by_cases h1 : k < k0
    · rw [if_pos h1] at h
      simp only [List.mem_cons] at h ⊢
      tauto
    · by_cases h2 : k = k0
      · rw [if_neg h1, if_pos h2] at h
        simp only [List.mem_cons] at h ⊢
        tauto
      · rw [if_neg h1, if_neg h2] at h
        simp only [List.mem_cons] at h ⊢
        rcases h with h | h
        · tauto
        · rcases ih h with h3 | h3 <;> tauto

/-- Sorted insertion preserves strict sortedness by glyph index. -/
theorem pairwise_insertSorted (k : Nat) (v : Nat × Nat) :
    ∀ l : List (Nat × Nat × Nat), l.Pairwise (fun a b => a.1 < b.1) →
      (insertSorted k v l).Pairwise (fun a b => a.1 < b.1) := by
  intro l
  induction l with
  | nil => intro _; simp [insertSorted]
  | cons e t ih =>
    obtain ⟨k0, v0⟩ := e
    intro hp
    rw [List.pairwise_cons] at hp
    unfold insertSorted
    by_cases h1 : k < k0
    · rw [if_pos h1, List.pairwise_cons]
      constructor
      · intro x hx
        simp only [List.mem_cons] at hx
        rcases hx with rfl | hx
        · exact h1
        · exact lt_trans h1 (hp.1 x hx)
      · exact List.pairwise_cons.mpr hp
    · by_cases h2 : k = k0
      · subst h2
        rw [if_neg h1, if_pos rfl, List.pairwise_cons]
        exact ⟨hp.1, hp.2⟩
      · rw [if_neg h1, if_neg h2, List.pairwise_cons]
        constructor
        · intro x hx
          rcases mem_insertSorted k v x t hx with rfl | hx
          · have hk : k0 < k := by omega
            exact hk
          · exact hp.1 x hx
        · exact ih hp.2

/-- The glyph-loop fold preserves strict sortedness of the map. -/
theorem glyphFold_pairwise (face : Face) (l : List Nat) :
    ∀ acc : GlyphAcc, acc.cmap.Pairwise (fun a b => a.1 < b.1) →
      ((l.foldl (glyphStep face) acc).cmap).Pairwise (fun a b => a.1 < b.1) := by
  induction l with
  | nil => exact fun acc h => h
  | cons u t ih =>
    intro acc h
    refine ih _ ?_
    unfold glyphStep
    by_cases h0 : face.get_char_index u = 0
    · simpa [h0] using h
    · by_cases hl : face.load_glyph_ok (face.get_char_index u) = true
      · simpa [h0, hl] using pairwise_insertSorted _ _ _ h
      · simpa [h0, hl] using h

/-- The glyph map is strictly sorted by glyph index. -/
theorem glyphLoop_pairwise (face : Face) :
    ((glyphLoop face).cmap).Pairwise (fun a b => a.1 < b.1) :=
  glyphFold_pairwise face _ _ (by simp)

/-- The code points of the enumeration range whose glyph resolves (nonzero
glyph index and successful glyph load). -/
def resolvedCodepoints (face : Face) : List Nat :=
  (List.range 0xffff).filter fun u =>
    face.get_char_index u != 0 && face.load_glyph_ok (face.get_char_index u)

/-- The running-maximum update of the loop is the binary maximum. -/
theorem if_lt_eq_max (m h : Int) : (if m < h then h else m) = max m h := by
  rcases lt_or_ge m h with h1 | h1
  · rw [if_pos h1, max_eq_right h1.le]
  · rw [if_neg (not_lt.mpr h1), max_eq_left h1]

/-- The maximum-height accumulator over the fold equals the fold of binary
maxima over the resolved code points. -/
theorem glyphFold_max_height (face : Face) (l : List Nat) :
    ∀ acc : GlyphAcc,
      (l.foldl (glyphStep face) acc).max_height =
        (l.filter fun u => face.get_char_index u != 0 &&
          face.load_glyph_ok (face.get_char_index u)).foldl
          (fun m u => max m (face.glyph_height (face.get_char_index u)))
          acc.max_height := by
  induction l with
  | nil => intro acc; rfl
  | cons u t ih =>
    intro acc
    rw [List.foldl_cons, ih]
    by_cases h0 : face.get_char_index u = 0
    · simp [List.filter_cons, h0, glyphStep]
    · by_cases hl : face.load_glyph_ok (face.get_char_index u) = true
      · simp [List.filter_cons, h0, hl, glyphStep, if_lt_eq_max]
      · simp [List.filter_cons, h0, hl, glyphStep]

/-- The total-width accumulator over the fold equals the sum of the resolved
glyph widths. -/
theorem glyphFold_total_width (face : Face) (l : List Nat) :
    ∀ acc : GlyphAcc,
      (l.foldl (glyphStep face) acc).total_width =
        acc.total_width +
          ((l.filter fun u => face.get_char_index u != 0 &&
            face.load_glyph_ok (face.get_char_index u)).map fun u =>
              face.glyph_width (face.get_char_index u)).sum := by
  induction l with
  | nil => intro acc; simp
  | cons u t ih =>
    intro acc
    rw [List.foldl_cons, ih]
    by_cases h0 : face.get_char_index u = 0
    · simp [List.filter_cons, h0, glyphStep]
    · by_cases hl : face.load_glyph_ok (face.get_char_index u) = true
      · simp [List.filter_cons, h0, hl, glyphStep]
        ring
      · simp [List.filter_cons, h0, hl, glyphStep]

/-- `FontBBox` height: the loop's maximum over all resolved glyph heights
(starting from 0). -/
theorem glyphLoop_max_height (face : Face) :
    (glyphLoop face).max_height =
      (resolvedCodepoints face).foldl
        (fun m u => max m (face.glyph_height (face.get_char_index u))) 0 := by
  unfold glyphLoop resolvedCodepoints
  rw [glyphFold_max_height]

/-- `FontBBox` width: the loop's running total over all resolved glyph
widths. -/
theorem glyphLoop_total_width (face : Face) :
    (glyphLoop face).total_width =
      ((resolvedCodepoints face).map fun u =>
        face.glyph_width (face.get_char_index u)).sum := by
  unfold glyphLoop resolvedCodepoints
  rw [glyphFold_total_width]
  simp

/-- The shape the spec requires of a successfully embedded composite font
object: Identity-H encoding; a CIDFontType0 descendant with the fixed Adobe
Identity 0 CIDSystemInfo; a `W` array of the form `[0 [w0 w1 ..]]` whose
widths follow the glyph map, which is strictly sorted by glyph index; a
FontBBox `[0, maxHeight, totalWidth, maxHeight]` where the height is the
maximum and the width the sum over all resolved glyphs; and a font stream
stored with compression disabled holding exactly the font bytes. -/
def CompositeFontShape (new_memory_face : List Nat → Option Face) (f : Font)
    (doc : LoDoc) (face : Face) : Prop :=
  ∃ doc2 fdict desc ddict,
    Font.into_obj_with_document new_memory_face f doc = some (doc2, fdict) ∧
    fdict.lookup "Encoding" = some (.Name "Identity-H") ∧
    fdict.lookup "Subtype" = some (.Name "Type0") ∧
    fdict.lookup "DescendantFonts" = some (.Array [.Dictionary desc]) ∧
    desc.lookup "Subtype" = some (.Name "CIDFontType0") ∧
    desc.lookup "CIDSystemInfo" = some (.Dictionary
      [("Registry", .LitString "Adobe"),
       ("Ordering", .LitString "Identity"),
       ("Supplement", .Integer 0)]) ∧
    desc.lookup "W" = some (.Array [.Integer 0,
      .Array ((glyphLoop face).cmap.map fun e => .Integer (e.2.2 : Int))]) ∧
    ((glyphLoop face).cmap).Pairwise (fun a b => a.1 < b.1) ∧
    (∃ did,
      desc.lookup "FontDescriptor" = some (.Reference did) ∧
      (did, .Dictionary ddict) ∈ doc2.objects ∧
      ddict.lookup "FontBBox" = some (.Array
        [.Integer 0, .Integer (glyphLoop face).max_height,
         .Integer (glyphLoop face).total_width,
         .Integer (glyphLoop face).max_height])) ∧
    (glyphLoop face).max_height =
      (resolvedCodepoints face).foldl
        (fun m u => max m (face.glyph_height (face.get_char_index u))) 0 ∧
    (glyphLoop face).total_width =
      ((resolvedCodepoints face).map fun u =>
        face.glyph_width (face.get_char_index u)).sum ∧
    (∃ fsid, ddict.lookup "FontFile3" = some (.Reference fsid) ∧
      (fsid, .Stream [("Length1", .Integer (f.font_bytes.length : Int)),
        ("Subtype", .Name "CIDFontType0C")] (.bytes f.font_bytes) false)
        ∈ doc2.objects)

/-- C4: every font the pipeline successfully embeds produces a composite font
object of exactly the required shape. -/
theorem C4_composite_font_object (new_memory_face : List Nat → Option Face)
    (f : Font) (doc : LoDoc) (face : Face) (m : Int × Int)
    (hface : new_memory_face f.font_bytes = some face)
    (hm : face.size_metrics = some m) :
    CompositeFontShape new_memory_face f doc face := by
  unfold CompositeFontShape
  unfold Font.into_obj_with_document
  simp only [hface, hm, LoDoc.add_object]
  refine ⟨_, _,
    insertPair "FontDescriptor" (.Reference (doc.max_id + 1 + 1 + 1, 0))
      [("Type", .Name "Font"),
       ("Subtype", .Name "CIDFontType0"),
       ("BaseFont", .Name f.face_name),
       ("W", .Array [.Integer 0,
         .Array ((glyphLoop face).cmap.map fun e => .Integer (e.2.2 : Int))]),
       ("CIDSystemInfo", .Dictionary
         [("Registry", .LitString "Adobe"),
          ("Ordering", .LitString "Identity"),
          ("Supplement", .Integer 0)])],
    [("Type", .Name "FontDescriptor"),
     ("FontName", .Name f.face_name),
     ("Ascent", .Integer m.1),
     ("Descent", .Integer m.2),
     ("CapHeight", .Integer m.1),
     ("ItalicAngle", .Integer 0),
     ("Flags", .Integer 32),
     ("StemV", .Integer 80),
     ("FontBBox", .Array [.Integer 0, .Integer (glyphLoop face).max_height,
       .Integer (glyphLoop face).total_width,
       .Integer (glyphLoop face).max_height]),
     ("FontFile3", .Reference (doc.max_id + 1 + 1, 0))],
    rfl, rfl, rfl, rfl, rfl, rfl, rfl, glyphLoop_pairwise face,
    ⟨(doc.max_id + 1 + 1 + 1, 0), rfl, by simp, rfl⟩,
    glyphLoop_max_height face, glyphLoop_total_width face,
    ⟨(doc.max_id + 1 + 1, 0), rfl, by simp⟩⟩

/-- C4 witness: the shape theorem instantiated at a concrete font, provider
and empty document. -/
theorem C4_witness :
    CompositeFontShape exampleProvider ⟨[9], "ExampleSans"⟩ ⟨0, []⟩
      exampleFace :=
  C4_composite_font_object exampleProvider ⟨[9], "ExampleSans"⟩ ⟨0, []⟩
    exampleFace (800, -200) rfl rfl

/-- A decimal rendering of `n < 10 ^ w` takes at most `w` characters. -/
theorem digitsAux_length_le :
    ∀ fuel n w, n < fuel → 1 ≤ w → n < 10 ^ w →
      (digitsAux fuel n).length ≤ w := by
  intro fuel
  induction fuel with
  | zero => intro n w h; omega
  | succ fuel ih =>
    intro n w hn hw hpow
    unfold digitsAux
    by_cases h10 : n < 10
    · rw [if_pos h10]
      simpa using hw
    · rw [if_neg h10]
      rw [List.length_append]
      obtain ⟨v, rfl⟩ : ∃ v, w = v + 1 := ⟨w - 1, by omega⟩
      have hv : 1 ≤ v := by
        by_contra hv0
        push_neg at hv0
        have hv1 : v = 0 := by omega
        subst hv1
        have : (10 : Nat) ^ (0 + 1) = 10 := by norm_num
        omega
      have hdiv : n / 10 < fuel := by
        have : n / 10 < n := Nat.div_lt_self (by omega) (by omega)
        omega
      have hdivpow : n / 10 < 10 ^ v := by
        rw [Nat.div_lt_iff_lt_mul (by omega)]
        calc n < 10 ^ (v + 1) := hpow
        _ = 10 ^ v * 10 := by ring
      have hrec := ih (n / 10) v hdiv hv hdivpow
      simp only [List.length_cons, List.length_nil]
      omega

/-- The character of a decimal digit is a digit character. -/
theorem digitChar_isDigit (d : Nat) (hd : d < 10) :
    (Char.ofNat (48 + d)).isDigit = true := by
  interval_cases d <;> decide

/-- Every character of the decimal rendering is a digit character. -/
theorem digitsAux_isDigit :
    ∀ fuel n, ∀ c ∈ digitsAux fuel n, c.isDigit = true := by
  intro fuel
  induction fuel with
  | zero => intro n c hc; simp [digitsAux] at hc
  | succ fuel ih =>
    intro n c hc
    unfold digitsAux at hc
    by_cases h10 : n < 10
    · rw [if_pos h10] at hc
      simp only [List.mem_singleton] at hc
      subst hc
      exact digitChar_isDigit n h10
    · rw [if_neg h10] at hc
      rw [List.mem_append] at hc
      rcases hc with hc | hc
      · exact ih _ c hc
      · simp only [List.mem_singleton] at hc
        subst hc
        exact digitChar_isDigit _ (Nat.mod_lt _ (by omega))

/-- Length bound for the decimal rendering. -/
theorem decimalStr_length_le (n w : Nat) (hw : 1 ≤ w) (h : n < 10 ^ w) :
    (decimalStr n).length ≤ w := by
  show (digitsAux (n + 1) n).length ≤ w
  exact digitsAux_length_le (n + 1) n w (by omega) hw h

/-- A zero-padded field whose content fits has exactly the field width. -/
theorem zeroPad_length_of_le (w : Nat) (s : String) (h : s.length ≤ w) :
    (zeroPad w s).length = w := by
  unfold zeroPad
  rw [String.length_append]
  show (List.replicate (w - s.length) '0').length + s.length = w
  rw [List.length_replicate]
  omega

/-- Every character of a zero-padded decimal field is a digit character. -/
theorem zeroPad_decimal_isDigit (w n : Nat) :
    ∀ c ∈ (zeroPad w (decimalStr n)).data, c.isDigit = true := by
  intro c hc
  have hdata : (zeroPad w (decimalStr n)).data =
      List.replicate (w - (decimalStr n).length) '0' ++ digitsAux (n + 1) n :=
    rfl
  rw [hdata, List.mem_append] at hc
  rcases hc with hc | hc
  · rw [List.eq_of_mem_replicate hc]
    decide
  · exact digitsAux_isDigit (n + 1) n c hc

/-- C8: for every UTC timestamp with in-range fields the formatter renders
`D:` followed by exactly fourteen digit characters (the zero-padded
`YYYYMMDDHHMMSS` fields) followed by the fixed `+00'00'` suffix. -/
theorem C8_timestamp_format (date : UtcDateTime)
    (hy : date.year < 10000) (hmo : date.month < 100) (hd : date.day < 100)
    (hh : date.hour < 100) (hmi : date.minute < 100) (hs : date.second < 100) :
    ∃ core : List Char,
      (to_pdf_time_stamp_metadata date).data =
        'D' :: ':' :: core ++ ['+', '0', '0', '\x27', '0', '0', '\x27'] ∧
      core.length = 14 ∧
      ∀ c ∈ core, c.isDigit = true := by
  refine ⟨(zeroPad 4 (decimalStr date.year)).data ++
    (zeroPad 2 (decimalStr date.month)).data ++
    (zeroPad 2 (decimalStr date.day)).data ++
    (zeroPad 2 (decimalStr date.hour)).data ++
    (zeroPad 2 (decimalStr date.minute)).data ++
    (zeroPad 2 (decimalStr date.second)).data, ?_, ?_, ?_⟩
  · simp only [to_pdf_time_stamp_metadata, String.data_append,
      List.append_assoc, List.cons_append]
    rfl
  · have h4 : (10 : Nat) ^ 4 = 10000 := by norm_num
    have h2 : (10 : Nat) ^ 2 = 100 := by norm_num
    have hyl := zeroPad_length_of_le 4 _
      (decimalStr_length_le date.year 4 (by omega) (by omega))
    have hmol := zeroPad_length_of_le 2 _
      (decimalStr_length_le date.month 2 (by omega) (by omega))
    have hdl := zeroPad_length_of_le 2 _
      (decimalStr_length_le date.day 2 (by omega) (by omega))
    have hhl := zeroPad_length_of_le 2 _
      (decimalStr_length_le date.hour 2 (by omega) (by omega))
    have hmil := zeroPad_length_of_le 2 _
      (decimalStr_length_le date.minute 2 (by omega) (by omega))
    have hsl := zeroPad_length_of_le 2 _
      (decimalStr_length_le date.second 2 (by omega) (by omega))
    have hyl2 : (zeroPad 4 (decimalStr date.year)).data.length = 4 := hyl
    have hmol2 : (zeroPad 2 (decimalStr date.month)).data.length = 2 := hmol
    have hdl2 : (zeroPad 2 (decimalStr date.day)).data.length = 2 := hdl
    have hhl2 : (zeroPad 2 (decimalStr date.hour)).data.length = 2 := hhl
    have hmil2 : (zeroPad 2 (decimalStr date.minute)).data.length = 2 := hmil
    have hsl2 : (zeroPad 2 (decimalStr date.second)).data.length = 2 := hsl
    simp only [List.length_append]
    omega
  · intro c hc
    simp only [List.mem_append] at hc
    rcases hc with ((((hc | hc) | hc) | hc) | hc) | hc <;>
      exact zeroPad_decimal_isDigit _ _ c hc

/-- C8 witness: the exact required rendering of `2017-05-05T15:02:24Z`,
together with the shape theorem at that instant. -/
theorem C8_witness :
    to_pdf_time_stamp_metadata ⟨2017, 5, 5, 15, 2, 24⟩ =
      "D:20170505150224+00\x2700\x27" ∧
    (∃ core : List Char,
      (to_pdf_time_stamp_metadata ⟨2017, 5, 5, 15, 2, 24⟩).data =
        'D' :: ':' :: core ++ ['+', '0', '0', '\x27', '0', '0', '\x27'] ∧
      core.length = 14 ∧
      ∀ c ∈ core, c.isDigit = true) :=
  ⟨by decide, C8_timestamp_format ⟨2017, 5, 5, 15, 2, 24⟩ (by decide)
    (by decide) (by decide) (by decide) (by decide) (by decide)⟩
